import Mathlib

/-!
Shallow embedding of the line-reconstruction / entity-association engine
(`app/engine_datamaster.py`) and of the aggregation stage
(`app/excel_datamaster.py`).

Strings are modelled as `List Char` (ASCII model of Python `str`); the
handful of regular expressions used by the source are embedded as explicit
fuel-driven scanners that implement exactly the matching semantics of the
patterns involved (word boundaries, greedy classes with the only relevant
backtracking, non-overlapping left-to-right scanning as in `findall`/`sub`).
Dates are embedded as `y*10000 + m*100 + d` naturals (the order coincides
with the order on `datetime.date`), absent values as `Option`.
-/

/-- Python strings, modelled over ASCII as lists of characters. -/
abbrev Str := List Char

/-- ASCII whitespace, the characters matched by `\s` on the inputs considered. -/
def isWs (c : Char) : Bool :=
  c == ' ' || c == '\t' || c == '\n' || c == '\r' || c == Char.ofNat 11 || c == Char.ofNat 12

/-- A regex word character `\w` (ASCII model): alphanumeric or underscore. -/
def wordChar (c : Char) : Bool :=
  c.isAlphanum || c == '_'

/-- Python `str.upper` on ASCII. -/
def upperStr (s : Str) : Str := s.map Char.toUpper

/-- Auxiliary splitter: whitespace-separated words, current word accumulated reversed. -/
def wordsAux : Str → Str → List Str
  | [], acc => if acc.isEmpty then [] else [acc.reverse]
  | c :: cs, acc =>
    if isWs c then
      if acc.isEmpty then wordsAux cs [] else acc.reverse :: wordsAux cs []
    else wordsAux cs (c :: acc)

/-- Python `s.split()` / `re.split(r"\s+")` with empty pieces dropped. -/
def words (s : Str) : List Str := wordsAux s []

/-- The engine's `_clean`: collapse whitespace runs to single spaces and trim. -/
def cleanStr (s : Str) : Str := List.intercalate [' '] (words s)

/-- Python `str.lstrip()`. -/
def lstrip (s : Str) : Str := s.dropWhile (fun c => isWs c)

/-- Python `str.strip()`. -/
def stripStr (s : Str) : Str :=
  ((s.dropWhile (fun c => isWs c)).reverse.dropWhile (fun c => isWs c)).reverse

/-- Startswith test, `s.startswith(pre)` in Python. -/
def strStarts (pre s : Str) : Bool := List.isPrefixOf pre s

/-- Substring test, `pat in s` in Python. -/
def containsSub (s pat : Str) : Bool :=
  match s with
  | [] => pat.isEmpty
  | _ :: rest => strStarts pat s || containsSub rest pat

/-- Digit run to number, for `int(...)` on an all-digit token. -/
def digitsToNat (s : Str) : Nat :=
  s.foldl (fun n c => n * 10 + (c.toNat - 48)) 0

/-! ### Embedded regular expressions

`ACC_RE = \b(\d{10})\b`, `DATE_RE = \b(\d{2}-\d{2}-\d{4})\b`,
`CIF_RE = \((\d{11})\)`, plus the anchored helper patterns. Scanning is
left-to-right and non-overlapping, continuing after each match, exactly as
`re.findall` / `re.finditer` / `re.sub` do. -/

/-- The apostrophe character. -/
def apos : Char := Char.ofNat 39

/-- A `\b` word-boundary holds before the scan position with previous character `prev`
(`none` at the start of the string), given the position starts a word character. -/
def boundaryB (prev : Option Char) : Bool :=
  match prev with
  | none => true
  | some p => !wordChar p

/-- A `\b` word boundary holds at the end of a match ending in a word character,
looking at the rest of the string. -/
def boundaryA (rest : Str) : Bool :=
  match rest with
  | [] => true
  | c :: _ => !wordChar c

/-- Whether `ACC_RE` matches at the current position. -/
def accMatchAt (prev : Option Char) (s : Str) : Bool :=
  boundaryB prev && (s.take 10).length == 10 && (s.take 10).all (fun c => c.isDigit)
    && boundaryA (s.drop 10)

/-- All `ACC_RE` matches with start offsets, in scan order. -/
def accScan : Nat → Nat → Option Char → Str → List (Nat × Str)
  | 0, _, _, _ => []
  | _, _, _, [] => []
  | fuel + 1, pos, prev, s@(c :: rest) =>
    if accMatchAt prev s then
      (pos, s.take 10) :: accScan fuel (pos + 10) s[9]? (s.drop 10)
    else
      accScan fuel (pos + 1) (some c) rest

/-- `ACC_RE.finditer` as (start, match) pairs. -/
def accFindAll (s : Str) : List (Nat × Str) := accScan (s.length + 1) 0 none s

/-- `ACC_RE.findall`. -/
def accMatches (s : Str) : List Str := (accFindAll s).map (fun m => m.2)

/-- Whether `ACC_RE.search` succeeds. -/
def accSearchB (s : Str) : Bool := !(accFindAll s).isEmpty

/-- Shape test for `\d{2}-\d{2}-\d{4}` on exactly the first ten characters. -/
def dateShape : Str → Bool
  | [a, b, h1, c, d, h2, e, f, g, h] =>
    a.isDigit && b.isDigit && h1 == '-' && c.isDigit && d.isDigit && h2 == '-'
      && e.isDigit && f.isDigit && g.isDigit && h.isDigit
  | _ => false

/-- Whether `DATE_RE` matches at the current position. -/
def dateMatchAt (prev : Option Char) (s : Str) : Bool :=
  boundaryB prev && dateShape (s.take 10) && boundaryA (s.drop 10)

/-- All `DATE_RE` matches in scan order. -/
def dateScan : Nat → Option Char → Str → List Str
  | 0, _, _ => []
  | _, _, [] => []
  | fuel + 1, prev, s@(c :: rest) =>
    if dateMatchAt prev s then
      s.take 10 :: dateScan fuel s[9]? (s.drop 10)
    else
      dateScan fuel (some c) rest

/-- `DATE_RE.findall`. -/
def dateMatches (s : Str) : List Str := dateScan (s.length + 1) none s

/-- Whether `DATE_RE.search` succeeds. -/
def dateSearchB (s : Str) : Bool := !(dateMatches s).isEmpty

/-- Whether `CIF_RE` (a parenthesised 11-digit identity number) matches here. -/
def cifMatchAt (s : Str) : Bool :=
  match s with
  | '(' :: r =>
    (r.take 11).length == 11 && (r.take 11).all (fun c => c.isDigit)
      && (match r.drop 11 with | ')' :: _ => true | _ => false)
  | _ => false

/-- All `CIF_RE` matches as (start, captured digits) pairs. -/
def cifScan : Nat → Nat → Str → List (Nat × Str)
  | 0, _, _ => []
  | _, _, [] => []
  | fuel + 1, pos, s@(_ :: rest) =>
    if cifMatchAt s then
      (pos, (s.drop 1).take 11) :: cifScan fuel (pos + 13) (s.drop 13)
    else
      cifScan fuel (pos + 1) rest

/-- `CIF_RE.finditer` as (start, captured digits) pairs. -/
def cifFindAll (s : Str) : List (Nat × Str) := cifScan (s.length + 1) 0 s

/-- Whether `CIF_RE.search` succeeds. -/
def cifSearchB (s : Str) : Bool := !(cifFindAll s).isEmpty

/-- `ROWSTART_RE = ^\s*(\d+)\s+`: on success, the remainder of the string
after the whole match (which is what both `.sub("", ...)` and slicing at
`.end()` produce). -/
def rowstartRem (s : Str) : Option Str :=
  let t := s.dropWhile (fun c => isWs c)
  let ds := t.takeWhile (fun c => c.isDigit)
  if ds.isEmpty then none
  else
    let r := t.drop ds.length
    let ws2 := r.takeWhile (fun c => isWs c)
    if ws2.isEmpty then none else some (r.drop ws2.length)

/-- Whether `ROWSTART_RE.match` succeeds. -/
def rowstartB (s : Str) : Bool := (rowstartRem s).isSome

/-- Apply `ROWSTART_RE.sub("", ·)` (equivalently, slice at the match end). -/
def rowstartStrip (s : Str) : Str :=
  match rowstartRem s with
  | some r => r
  | none => s

/-- Character class `[A-Z .'/,-]` of the officer-group heading pattern. -/
def aoNameChar (c : Char) : Bool :=
  c.isUpper || c == ' ' || c == '.' || c == apos || c == '/' || c == ',' || c == '-'

/-- The officer-heading guard `^\d{4,6}\s*-\s*[A-Z]` (`re.match`, caller upper-cases). -/
def aoHeaderStart (s : Str) : Bool :=
  let ds := s.takeWhile (fun c => c.isDigit)
  decide (4 ≤ ds.length) && decide (ds.length ≤ 6) &&
    (match (s.drop ds.length).dropWhile (fun c => isWs c) with
     | '-' :: r =>
       (match r.dropWhile (fun c => isWs c) with
        | c :: _ => c.isUpper
        | [] => false)
     | _ => false)

/-- The anchored noise pattern `^\d{4,6}\s*-\s*[A-Z][A-Z .'/,-]{2,}$`. -/
def aoHeaderFullLine (s : Str) : Bool :=
  let ds := s.takeWhile (fun c => c.isDigit)
  decide (4 ≤ ds.length) && decide (ds.length ≤ 6) &&
    (match (s.drop ds.length).dropWhile (fun c => isWs c) with
     | '-' :: r =>
       (match r.dropWhile (fun c => isWs c) with
        | c :: rest => c.isUpper && decide (2 ≤ rest.length) && rest.all (fun d => aoNameChar d)
        | [] => false)
     | _ => false)

/-- The banner/caption prefixes recognised by `_is_noise`. -/
def noiseStarts : List Str :=
  [("LAPORAN JATUH TEMPO").data, ("CABANG").data, ("DATA PER").data, ("KODE AO").data,
   ("NO NAMA").data, ("MIS;").data, ("HAL :").data]

/-- The engine's `_is_noise`. -/
def isNoiseLine (line : Str) : Bool :=
  if line.isEmpty then true
  else
    let u := stripStr line
    noiseStarts.any (fun p => strStarts p (upperStr u)) || aoHeaderFullLine (upperStr u)

/-- Scanner for `SME[\s_\-]*([A-Z]{3})` over the upper-cased file name. -/
def cabangScan : Nat → Str → Option Str
  | 0, _ => none
  | _, [] => none
  | fuel + 1, s@(_ :: rest) =>
    if strStarts ("SME").data s then
      let r := (s.drop 3).dropWhile (fun c => isWs c || c == '_' || c == '-')
      if (r.take 3).length == 3 && (r.take 3).all (fun c => c.isUpper) then some (r.take 3)
      else cabangScan fuel rest
    else cabangScan fuel rest

/-- The engine's `cabang_from_filename`, on the document's file name. -/
def cabangFromFilename (name : Str) : Str :=
  match cabangScan (name.length + 1) (upperStr name) with
  | some r => r
  | none => []

/-- The sector/commodity vocabulary of `SECTOR_WORDS_RE`. -/
def sectorWords : List Str :=
  [("PETERNAKAN").data, ("MAKANAN").data, ("DISTRIBUSI").data, ("PROPERTI").data,
   ("TELEKOMUNIKASI").data, ("OTOMOTIF").data, ("TRANSPORTASI").data, ("BAHAN").data,
   ("PERKEBUNAN").data, ("MEDIA").data, ("JASA").data, ("PERTAMBANGAN").data,
   ("FARMASI").data, ("TEKSTIL").data, ("PRASARANA").data, ("HASIL").data,
   ("INDUSTRI").data, ("KEBUTUHAN").data, ("PERALATAN").data, ("PACKAGING").data,
   ("KONSTRUKSI").data, ("MIGAS").data, ("LISTRIK").data, ("LOGAM").data,
   ("KIMIA").data, ("PLASTIK").data, ("KAYU").data, ("KEHUTANAN").data,
   ("RETAILER").data, ("TOSERBA").data, ("ROKOK").data, ("TEMBAKAU").data,
   ("RESTORAN").data, ("ELEKTRONIK").data, ("ALAT-ALAT").data, ("PERMESINAN").data,
   ("ALAT").data, ("BERAT").data, ("LOGISTIK").data, ("PERTANIAN").data,
   ("KONSUMEN").data, ("PERLENGKAPAN").data, ("SEJENISNYA").data]

/-- Whether `SECTOR_WORDS_RE` (case-insensitive, `\b`-delimited) matches here. -/
def sectorMatchAt (prev : Option Char) (s : Str) : Bool :=
  boundaryB prev &&
    sectorWords.any (fun w =>
      strStarts w (upperStr (s.take w.length)) && boundaryA (s.drop w.length))

/-- Position of the first `SECTOR_WORDS_RE` match, if any. -/
def sectorScan : Nat → Nat → Option Char → Str → Option Nat
  | 0, _, _, _ => none
  | _, _, _, [] => none
  | fuel + 1, pos, prev, s@(c :: rest) =>
    if sectorMatchAt prev s then some pos
    else sectorScan fuel (pos + 1) (some c) rest

/-- `SECTOR_WORDS_RE.split(s)[0]`: the part before the first sector-word match. -/
def sectorCut (s : Str) : Str :=
  match sectorScan (s.length + 1) 0 none s with
  | some p => s.take p
  | none => s

/-- Character class of the officer-attribution fragment: letters, space, dot,
comma, apostrophe, slash, dash. -/
def aoFragChar (c : Char) : Bool :=
  c.isAlpha || c == ' ' || c == '.' || c == ',' || c == apos || c == '/' || c == '-'

/-- The lookahead `(?=\s*\(\d{11}\))`. -/
def lookParen (s : Str) : Bool :=
  match s.dropWhile (fun c => isWs c) with
  | '(' :: r =>
    (r.take 11).length == 11 && (r.take 11).all (fun c => c.isDigit)
      && (match r.drop 11 with | ')' :: _ => true | _ => false)
  | _ => false

/-- Greedy backtracking for the repeated fragment class (at least two characters)
followed by the lookahead: largest `k ≥ 2` within the class run after which the
lookahead holds. -/
def tryBack (base : Str) : Nat → Option Nat
  | 0 => none
  | k + 1 =>
    if decide (2 ≤ k + 1) && lookParen (base.drop (k + 1)) then some (k + 1)
    else tryBack base k

/-- Match of the officer-attribution pattern (optional whitespace, dash, optional
whitespace, a letter, two or more fragment-class characters, then the
parenthesised-identity lookahead) anchored at the current position: number of
characters consumed on success. -/
def aoStripMatchAt (s : Str) : Option Nat :=
  let w1 := s.takeWhile (fun c => isWs c)
  match s.drop w1.length with
  | '-' :: r1 =>
    let w2 := r1.takeWhile (fun c => isWs c)
    (match r1.drop w2.length with
     | c :: r2 =>
       if c.isAlpha then
         (match tryBack r2 (r2.takeWhile (fun d => aoFragChar d)).length with
          | some k => some (w1.length + 1 + w2.length + 1 + k)
          | none => none)
       else none
     | [] => none)
  | _ => none

/-- `re.sub` of the officer-attribution-before-identity pattern with `""`. -/
def aoStripScan : Nat → Str → Str
  | 0, s => s
  | _, [] => []
  | fuel + 1, s@(c :: rest) =>
    match aoStripMatchAt s with
    | some k => aoStripScan fuel (s.drop k)
    | none => c :: aoStripScan fuel rest

/-- Remove every officer-attribution fragment placed right before an identity number. -/
def stripAOBeforeCIF (s : Str) : Str := aoStripScan (s.length + 1) s

/-- The `^(MILIK(I)?)(\s*:\s*|\s+)+` possessive prefix removal (case-insensitive). -/
def stripMilik (s : Str) : Str :=
  let u := upperStr s
  if strStarts ("MILIKI").data u then
    (let r := s.drop 6
     let run := r.takeWhile (fun c => isWs c || c == ':')
     if run.isEmpty then s else r.drop run.length)
  else if strStarts ("MILIK").data u then
    (let r := s.drop 5
     let run := r.takeWhile (fun c => isWs c || c == ':')
     if run.isEmpty then s else r.drop run.length)
  else s

/-- `re.sub(r"^\s*-\s+", "", s)`: drop one leading dash followed by whitespace. -/
def stripLeadDash (s : Str) : Str :=
  let w1 := s.takeWhile (fun c => isWs c)
  match s.drop w1.length with
  | '-' :: r =>
    let w2 := r.takeWhile (fun c => isWs c)
    if w2.isEmpty then s else r.drop w2.length
  | _ => s

/-- The data-frame safety replacement `^\s*-\s*` on the borrower display. -/
def namaStripDash (s : Str) : Str :=
  let w1 := s.takeWhile (fun c => isWs c)
  match s.drop w1.length with
  | '-' :: r => r.dropWhile (fun c => isWs c)
  | _ => s

/-- Whether a `\b`-delimited literal word `w` matches at the current position. -/
def wordMatchAt (prev : Option Char) (w s : Str) : Bool :=
  boundaryB prev && strStarts w s && boundaryA (s.drop w.length)

/-- Search for a `\b`-delimited literal word anywhere in the string. -/
def wordScan : Nat → Option Char → Str → Str → Bool
  | 0, _, _, _ => false
  | _, _, _, [] => false
  | fuel + 1, prev, w, s@(c :: rest) =>
    wordMatchAt prev w s || wordScan fuel (some c) w rest

/-- Whether `re.search(r"\bW\b", s)` succeeds for the literal word `W`. -/
def wordSearchB (w s : Str) : Bool := wordScan (s.length + 1) none w s

mutual

/-- Pandas `str.replace(r"\s+", " ")`: collapse whitespace runs, no trimming. -/
def collapseWs : Str → Str
  | [] => []
  | c :: rest => if isWs c then ' ' :: collapseWsSkip rest else c :: collapseWs rest

/-- Helper of `collapseWs`: inside a whitespace run whose space was already emitted. -/
def collapseWsSkip : Str → Str
  | [] => []
  | c :: rest => if isWs c then collapseWsSkip rest else c :: collapseWs rest

end

/-! ### Facility-type normalisation and borrower-name derivation -/

/-- The engine's `normalize_fasilitas`. -/
def normalizeFasilitas (f : Str) : Str :=
  let s := stripStr (collapseWs (upperStr (cleanStr f)))
  if containsSub s ("LETTER OF CREDIT").data || containsSub s ("L/C").data
      || wordSearchB ("LC").data s then ("L/C").data
  else if containsSub s ("TRUST RECEIPT").data || wordSearchB ("TR").data s then
    ("TRUST RECEIPT").data
  else if containsSub s ("KREDIT MULTI").data || containsSub s ("MULTI FASILITAS").data then
    ("KREDIT MULTI FASILITAS").data
  else if containsSub s ("TIME LOAN").data || wordSearchB ("TL").data s then
    ("TIME LOAN").data
  else if containsSub s ("KREDIT LOKAL").data || wordSearchB ("KL").data s then
    ("KREDIT LOKAL").data
  else if containsSub s ("BANK GARANSI").data || wordSearchB ("BG").data s then
    ("BANK GARANSI").data
  else s

/-- The canonical priority keywords tested by `is_priority_facility`, in order. -/
def priorityKeys : List Str :=
  [("BANK GARANSI").data, ("KREDIT LOKAL").data, ("TIME LOAN").data,
   ("KREDIT MULTI FASILITAS").data, ("L/C").data, ("TRUST RECEIPT").data]

/-- The engine's `is_priority_facility`: `any(k in u for k in ...)` over the
upper-cased input. -/
def isPriorityFacility (f : Str) : Bool :=
  let u := upperStr f
  priorityKeys.any (fun k => containsSub u k)

/-- Keep a character of a name token: `re.sub(r"[^\w/&\-.']", "", t)` keeps word
characters, slash, ampersand, dash, dot and apostrophe. -/
def nameCharOk (c : Char) : Bool :=
  wordChar c || c == '/' || c == '&' || c == '-' || c == '.' || c == apos

/-- Strip a name token of disallowed characters. -/
def stripTok (t : Str) : Str := t.filter (fun c => nameCharOk c)

/-- The corporate-entity markers `CORP_MARKERS`. -/
def corpMarkers : List Str :=
  [("PT").data, ("CV").data, ("UD").data, ("PD").data, ("TB").data, ("KOPERASI").data]

/-- Currency/facility noise words `NON_NAME_NOISE` never kept in a name. -/
def nonNameNoise : List Str :=
  [("IDR").data, ("USD").data, ("CNY").data, ("LOAN").data, ("INSTALLMENT").data]

/-- The engine's `_clean_company_name`: truncate after the first token whose
stripped upper-case form is `PT` or `CV`; keep everything when there is none. -/
def cleanCompanyName : List Str → List Str
  | [] => []
  | t :: ts =>
    if upperStr (stripTok t) == ("PT").data || upperStr (stripTok t) == ("CV").data then [t]
    else t :: cleanCompanyName ts

/-- The engine's `_dedup` on tokens: keep first occurrences, preserving order. -/
def dedupToks (seen : List Str) : List Str → List Str
  | [] => []
  | t :: ts => if seen.contains t then dedupToks seen ts else t :: dedupToks (t :: seen) ts

/-- The engine's `_looks_bad_name` guard. -/
def looksBadName (name : Str) : Bool :=
  if name.isEmpty then true
  else
    let u := upperStr name
    let pads := ' ' :: u ++ [' ']
    containsSub pads (" IDR ").data || containsSub pads (" USD ").data
      || containsSub pads (" CNY ").data
      || [("KREDIT").data, ("BANK GARANSI").data, ("TIME LOAN").data,
          ("TRUST RECEIPT").data, ("L/C").data, ("LETTER OF CREDIT").data].any
          (fun k => containsSub u k)
      || dateSearchB name || accSearchB name

/-- The token-selection step of `_derive_name_and_cif`: corporate names are cut by
`_clean_company_name`, personal names are capped at three tokens. The corporate
test is raw-uppercase membership in `CORP_MARKERS`. -/
def borrowerTokenCut (toks : List Str) : List Str :=
  if toks.any (fun t => corpMarkers.contains (upperStr t)) then cleanCompanyName toks
  else toks.take 3

/-- The engine's `_derive_name_and_cif`, including its index arithmetic quirks
(`cif_m.start()` computed on the string before the MILIK strip, `acc_m.start()`
applied to the cleaned row-start-stripped segment). -/
def deriveNameAndCif (line : Str) : Str × Str :=
  let s := stripStr (stripLeadDash (cleanStr line))
  match (cifFindAll s).head? with
  | none => ([], [])
  | some (cifStart, cif) =>
    let s2 := stripStr (stripMilik s)
    let beforeCif := stripStr (rowstartStrip (cleanStr (s2.take cifStart)))
    if strStarts ("-").data (lstrip beforeCif) then ([], cif)
    else
      let seg :=
        match (accFindAll s2).head? with
        | some (accStart, _) =>
          if accStart < cifStart then
            stripStr ((cleanStr (rowstartStrip s2)).take accStart)
          else beforeCif
        | none => beforeCif
      let seg := stripStr (sectorCut seg)
      let toks := words seg
      let toks := borrowerTokenCut toks
      let toks := toks.map (fun t => stripTok t)
      let toks := toks.filter (fun t => !t.isEmpty && !nonNameNoise.contains (upperStr t))
      let toks := dedupToks [] toks
      let name := cleanStr (List.intercalate [' '] toks)
      if looksBadName name then ([], cif) else (name, cif)

/-! ### Facility parsing -/

/-- The engine's `_parse_amount_token`. -/
def parseAmountToken (tok : Str) : Option Nat :=
  if tok.isEmpty then none
  else
    let t := stripStr (tok.filter (fun c => c != ','))
    if t.isEmpty then none
    else if t.all (fun c => c.isDigit) then some (digitsToNat t) else none

/-- Days of a month under the Gregorian leap rule, as `datetime` validates them. -/
def daysInMonth (y m : Nat) : Nat :=
  if m == 2 then
    if y % 4 == 0 && (y % 100 != 0 || y % 400 == 0) then 29 else 28
  else if m == 4 || m == 6 || m == 9 || m == 11 then 30
  else 31

/-- `datetime.strptime(d, "%d-%m-%Y").date()` on a `DATE_RE` match, encoded as
`y*10000 + m*100 + d`; `none` when the date is invalid. -/
def parseDateDmy (s : Str) : Option Nat :=
  match s with
  | [d1, d2, _, m1, m2, _, y1, y2, y3, y4] =>
    let d := digitsToNat [d1, d2]
    let m := digitsToNat [m1, m2]
    let y := digitsToNat [y1, y2, y3, y4]
    if 1 ≤ y && 1 ≤ m && m ≤ 12 && 1 ≤ d && d ≤ daysInMonth y m then
      some (y * 10000 + m * 100 + d)
    else none
  | _ => none

/-- A parsed facility: account number, normalised type, literal amount, maturity. -/
structure Facility where
  acc : Str
  fasilitas : Str
  plafond : Option Nat
  dtAkhir : Option Nat
deriving DecidableEq, Repr

/-- The currency codes recognised by the parsers. -/
def currencyToks : List Str := [("IDR").data, ("USD").data, ("CNY").data]

/-- The engine's `_parse_facility_from_line` (account number present). -/
def parseFacilityFromLine (line : Str) : Option Facility :=
  let s := cleanStr line
  let accs := accMatches s
  let dates := dateMatches s
  match accs with
  | [] => none
  | acc :: _ =>
    if dates.length < 2 then none
    else
      let toks := words s
      match toks.findIdx? (fun t => t == acc) with
      | none => none
      | some iAcc =>
        match (toks.drop (iAcc + 1)).findIdx? (fun t => currencyToks.contains t) with
        | none => none
        | some jRel =>
          let cIdx := iAcc + 1 + jRel
          let fasilitasRaw := stripStr (List.intercalate [' '] ((toks.drop (iAcc + 1)).take jRel))
          let fasilitas := normalizeFasilitas fasilitasRaw
          let plaf :=
            match toks[cIdx + 1]? with
            | some t => parseAmountToken t
            | none => none
          let dt :=
            match dates.getLast? with
            | some d => parseDateDmy d
            | none => none
          some { acc := acc, fasilitas := fasilitas, plafond := plaf, dtAkhir := dt }

/-- The keyword list probed, in order, by the account-less parser. -/
def noAccKeys : List Str :=
  [("BANK GARANSI").data, ("KREDIT LOKAL").data, ("TIME LOAN").data,
   ("KREDIT MULTI").data, ("MULTI FASILITAS").data, ("TRUST RECEIPT").data,
   ("LETTER OF CREDIT").data, ("L/C").data]

/-- The engine's `_parse_facility_from_line_no_acc` (hinted account number). -/
def parseFacilityNoAcc (line : Str) (accHint : Option Str) : Option Facility :=
  match accHint with
  | none => none
  | some hint =>
    if hint.isEmpty then none
    else
      let s := cleanStr line
      let dates := dateMatches s
      if dates.length < 2 then none
      else if !(wordSearchB ("IDR").data s || wordSearchB ("USD").data s
                 || wordSearchB ("CNY").data s) then none
      else if accSearchB s then none
      else
        let toks := words s
        match toks.findIdx? (fun t => currencyToks.contains t) with
        | none => none
        | some cIdx =>
          let left := stripStr (List.intercalate [' '] (toks.take cIdx))
          let left := stripStr (sectorCut left)
          let u := upperStr left
          let guess :=
            match noAccKeys.find? (fun k => containsSub u k) with
            | some k => k
            | none =>
              let ws := words left
              stripStr (List.intercalate [' '] (ws.drop (ws.length - 4)))
          if (stripStr guess).isEmpty then none
          else
            let fasilitas := normalizeFasilitas guess
            let plaf :=
              match toks[cIdx + 1]? with
              | some t => parseAmountToken t
              | none => none
            let dt :=
              match dates.getLast? with
              | some d => parseDateDmy d
              | none => none
            some { acc := hint, fasilitas := fasilitas, plafond := plaf, dtAkhir := dt }

/-! ### Line shaping: embedded-borrower split and wrapped-line merge -/

/-- Whether `EMBED_BORROWER_RE` matches at this position (digits, whitespace,
2 to 120 characters without parentheses, then a parenthesised 11-digit number),
returning the end of the match on success. -/
def embMatchAt (prev : Option Char) (s : Str) : Option Nat :=
  if !boundaryB prev then none
  else
    let ds := s.takeWhile (fun c => c.isDigit)
    if ds.isEmpty then none
    else
      let rest := s.drop ds.length
      let seg := rest.takeWhile (fun c => c != '(')
      let l := seg.length
      let w := (seg.takeWhile (fun c => isWs c)).length
      if decide (1 ≤ w) && decide (3 ≤ l) && decide (l ≤ 120 + w)
          && !seg.any (fun c => c == ')') && cifMatchAt (rest.drop l) then
        some (ds.length + l + 13)
      else none

/-- Start offsets of all `EMBED_BORROWER_RE` matches, in scan order. -/
def embScan : Nat → Nat → Option Char → Str → List Nat
  | 0, _, _, _ => []
  | _, _, _, [] => []
  | fuel + 1, pos, prev, s@(c :: rest) =>
    match embMatchAt prev s with
    | some e => pos :: embScan fuel (pos + e) s[e - 1]? (s.drop e)
    | none => embScan fuel (pos + 1) (some c) rest

/-- Cut one line at the given ascending positions, cleaning and dropping empties. -/
def cutAt (s : Str) : List Nat → Nat → List Str
  | [], start => if (cleanStr (s.drop start)).isEmpty then [] else [cleanStr (s.drop start)]
  | p :: ps, start =>
    let part := cleanStr ((s.take p).drop start)
    if part.isEmpty then cutAt s ps p else part :: cutAt s ps p

/-- The engine's `_split_embedded_borrowers`. -/
def splitEmbeddedBorrowers (lines : List Str) : List Str :=
  lines.flatMap (fun ln =>
    let ln := stripStr (stripAOBeforeCIF ln)
    let s := cleanStr ln
    if s.isEmpty then []
    else
      let cuts := (embScan (s.length + 1) 0 none s).filter (fun p => p != 0)
      if cuts.isEmpty then [s] else cutAt s cuts 0)

/-- The borrower-stub heuristic `_looks_like_borrower_stub`. -/
def looksLikeBorrowerStub (x : Str) : Bool :=
  if x.isEmpty then false
  else if accSearchB x then false
  else if dateSearchB x then false
  else
    let toks := words (x.map (fun c => if c == '/' then ' ' else c))
    let alpha := (toks.filter (fun t => t.any (fun c => c.isAlpha))).length
    let digit := (toks.filter (fun t =>
      !t.isEmpty && t.all (fun c => c.isDigit || c == ',' || c == '.' || c == '-'))).length
    decide (2 ≤ alpha) && decide (digit ≤ alpha)

/-- Currency presence test of the merge heuristic: `" IDR " in f" {line} "` etc. -/
def hasCurrencyPadded (line : Str) : Bool :=
  let pads := ' ' :: line ++ [' ']
  containsSub pads (" IDR ").data || containsSub pads (" USD ").data
    || containsSub pads (" CNY ").data

/-- One Python-loop pass of `_merge_wrapped` (fuel counts loop iterations). -/
def mergeWrappedAux : Nat → List Str → List Str
  | 0, _ => []
  | _, [] => []
  | fuel + 1, l0 :: rest =>
    let line := cleanStr l0
    if line.isEmpty then mergeWrappedAux fuel rest
    else
      let nxt := match rest.head? with | some x => cleanStr x | none => []
      let nxt2 := match rest.tail.head? with | some x => cleanStr x | none => []
      if !cifSearchB line && !nxt.isEmpty && cifSearchB nxt && rowstartB line then
        if aoHeaderStart (upperStr line) then line :: mergeWrappedAux fuel rest
        else cleanStr (line ++ ' ' :: nxt) :: mergeWrappedAux fuel (rest.drop 1)
      else if !cifSearchB line && !nxt.isEmpty && cifSearchB nxt
          && looksLikeBorrowerStub line
          && (strStarts ("-").data (stripStr nxt) || strStarts ("(").data (stripStr nxt)
              || cifSearchB nxt) then
        cleanStr (stripAOBeforeCIF (cleanStr (line ++ ' ' :: nxt)))
          :: mergeWrappedAux fuel (rest.drop 1)
      else
        let u := upperStr line
        let isLc := containsSub u ("L/C").data || containsSub u ("LETTER OF CREDIT").data
        if accSearchB line && !isLc
            && (!hasCurrencyPadded line || (dateMatches line).length < 2) then
          let comb := cleanStr (line ++ ' ' :: nxt)
          if !nxt2.isEmpty
              && (!hasCurrencyPadded comb || (dateMatches comb).length < 2) then
            cleanStr (comb ++ ' ' :: nxt2) :: mergeWrappedAux fuel (rest.drop 2)
          else
            cleanStr comb :: mergeWrappedAux fuel (rest.drop 1)
        else
          cleanStr line :: mergeWrappedAux fuel rest

/-- The engine's `_merge_wrapped`, with its final removal of empty strings. -/
def mergeWrapped (lines : List Str) : List Str :=
  (mergeWrappedAux (lines.length + 1) lines).filter (fun x => !x.isEmpty)

/-! ### Record assembly (`parse_pdfs_to_raw`) -/

/-- One output record, the engine's row dictionary. -/
structure Row where
  nama : Str
  accNo : Str
  cabang : Str
  fasilitas : Str
  plafond : Option Nat
  tglAkhir : Option Nat
  sumberFile : Str
  isPriority : Bool
deriving DecidableEq, Repr

/-- The mutable scan state of `parse_pdfs_to_raw`: active borrower context,
carried account-number hint and rows emitted so far. -/
structure PState where
  currentName : Str
  currentCif : Str
  lastAcc : Option Str
  rows : List Row
deriving DecidableEq, Repr

/-- The initial state, as set up before the document loop. -/
def initState : PState := { currentName := [], currentCif := [], lastAcc := none, rows := [] }

/-- The borrower-update step (A) of the per-line body. -/
def borrowerUpdate (st : PState) (ln : Str) : PState :=
  let isAo := strStarts ("-").data (lstrip ln) && cifSearchB ln
  if cifSearchB ln && !isAo then
    let nc := deriveNameAndCif ln
    if !nc.1.isEmpty && !nc.2.isEmpty then
      { st with currentName := nc.1, currentCif := nc.2 }
    else st
  else st

/-- The facility obtained for a line (parser 4.5, falling back to 4.6 with the
carried hint). -/
def facilityOfLine (ln : Str) (lastAcc : Option Str) : Option Facility :=
  match parseFacilityFromLine ln with
  | some f => some f
  | none => parseFacilityNoAcc ln lastAcc

/-- The per-line body of `parse_pdfs_to_raw` (steps A and B). -/
def processLine (cabang sumber : Str) (st : PState) (ln0 : Str) : PState :=
  let ln := cleanStr ln0
  if isNoiseLine ln then st
  else
    let st1 := borrowerUpdate st ln
    match facilityOfLine ln st.lastAcc with
    | some f =>
      if !st1.currentName.isEmpty && !st1.currentCif.isEmpty then
        let nama := st1.currentName ++ ' ' :: '(' :: st1.currentCif ++ [')']
        let row : Row :=
          { nama := nama
            accNo := f.acc
            cabang := cabang
            fasilitas := upperStr f.fasilitas
            plafond := f.plafond
            tglAkhir := f.dtAkhir
            sumberFile := sumber
            isPriority := isPriorityFacility f.fasilitas }
        { st1 with rows := st1.rows ++ [row], lastAcc := some f.acc }
      else st1
    | none => st1

/-- One page of one document: noise filtering, embedded-borrower split, wrapped
merge, then the per-line fold. -/
def processPage (cabang sumber : Str) (st : PState) (pageLines : List Str) : PState :=
  let raw := ((pageLines.map (fun l => cleanStr l)).filter (fun l => !isNoiseLine l))
  let lines := mergeWrapped (splitEmbeddedBorrowers raw)
  lines.foldl (fun s l => processLine cabang sumber s l) st

/-- A source document: its file name and the text lines of each page. -/
structure Doc where
  name : Str
  pages : List (List Str)

/-- One document of the corpus, with the state carried in. -/
def processDoc (st : PState) (d : Doc) : PState :=
  (d.pages).foldl (fun s pg => processPage (cabangFromFilename d.name) d.name s pg) st

/-- The dedup key of `drop_duplicates`: the tuple
(Nama, ACC No, Fasilitas, Plafond, Tgl PMK/PK Akhir). -/
def dedupKey (r : Row) : Str × Str × Str × Option Nat × Option Nat :=
  (r.nama, r.accNo, r.fasilitas, r.plafond, r.tglAkhir)

/-- `drop_duplicates(subset=..., keep="first")` over the emitted rows. -/
def dedupRowsAux (seen : List (Str × Str × Str × Option Nat × Option Nat)) :
    List Row → List Row
  | [] => []
  | r :: rs =>
    if seen.contains (dedupKey r) then dedupRowsAux seen rs
    else r :: dedupRowsAux (dedupKey r :: seen) rs

/-- The deduplicator of `parse_pdfs_to_raw`. -/
def dedupRows (rows : List Row) : List Row := dedupRowsAux [] rows

/-- The data-frame post-processing of `parse_pdfs_to_raw`: strip a leading dash
from the display name, re-uppercase and re-collapse the facility type. -/
def postRow (r : Row) : Row :=
  { r with
    nama := namaStripDash r.nama
    fasilitas := collapseWs (upperStr r.fasilitas) }

/-- The engine's `parse_pdfs_to_raw` over an already-extracted corpus: the fold
over documents (state initialised once), the data-frame fixups, and the final
deduplication. -/
def parsePdfsToRaw (docs : List Doc) : List Row :=
  dedupRows (((docs.foldl (fun s d => processDoc s d) initState).rows).map postRow)

/-! ### Aggregation stage (`excel_datamaster.py`) -/

/-- The borrower-level priority flag: `groupby("Nama")["IsPriority"].any()`. -/
def hasPriorityB (recs : List Row) (nama : Str) : Bool :=
  recs.any (fun r => r.nama == nama && r.isPriority)

/-- The aggregation stage's `_split_priority`: the priority view keeps the
priority rows of borrowers having at least one priority row, the non-priority
view keeps every row of the remaining borrowers. Row order is preserved (the
`merge` on the unique key `Nama` is order-preserving, and the masks are filters). -/
def splitPriority (recs : List Row) : List Row × List Row :=
  (recs.filter (fun r => hasPriorityB recs r.nama && r.isPriority),
   recs.filter (fun r => !hasPriorityB recs r.nama))

/-- Comparison on optional dates with `NaT` sorted last (`na_position="last"`). -/
def optLeB : Option Nat → Option Nat → Bool
  | _, none => true
  | none, some _ => false
  | some a, some b => decide (a ≤ b)

/-- Lexicographic string comparison, Python's `str` order on code points. -/
def strLeB : Str → Str → Bool
  | [], _ => true
  | _ :: _, [] => false
  | a :: as, b :: bs => if a = b then strLeB as bs else decide (a < b)

/-- Lexicographic combination of a comparison on the first component with one on
the rest. -/
def lexB {α β : Type} [DecidableEq α] (lea : α → α → Bool) (leb : β → β → Bool)
    (x y : α × β) : Bool :=
  if x.1 = y.1 then leb x.2 y.2 else lea x.1 y.1

/-- Minimum of optional dates ignoring absent values (`groupby(...).min()` skips
`NaT`; the minimum of an all-absent group is `NaT`). -/
def minOptTop : Option Nat → Option Nat → Option Nat
  | none, b => b
  | a, none => a
  | some a, some b => some (min a b)

/-- Per-borrower earliest maturity (`Debitur_Earliest`). -/
def earliestFor (recs : List Row) (nama : Str) : Option Nat :=
  ((recs.filter (fun r => r.nama == nama)).map (fun r => r.tglAkhir)).foldr minOptTop none

/-- The sort key of `_sort_block_style`:
`["Debitur_Earliest", "Nama", "Tgl PMK/PK Akhir", "Fasilitas", "ACC No"]`. -/
def sortKey (recs : List Row) (r : Row) :
    Option Nat × Str × Option Nat × Str × Str :=
  (earliestFor recs r.nama, r.nama, r.tglAkhir, r.fasilitas, r.accNo)

/-- The full lexicographic comparison on sort keys, absent dates last. -/
def keyLe : Option Nat × Str × Option Nat × Str × Str →
    Option Nat × Str × Option Nat × Str × Str → Bool :=
  lexB optLeB (lexB strLeB (lexB optLeB (lexB strLeB strLeB)))

/-- The row ordering used by `_sort_block_style` on a given record set. -/
def sortRel (recs : List Row) (a b : Row) : Prop :=
  keyLe (sortKey recs a) (sortKey recs b) = true

instance sortRelDecidable (recs : List Row) : DecidableRel (sortRel recs) :=
  fun a b => instDecidableEqBool (keyLe (sortKey recs a) (sortKey recs b)) true

/-- The aggregation stage's `_sort_block_style`: the unique stable sort by the
five-part key (pandas `kind="mergesort"`), embedded as the stable insertion
sort, whose output is the same list for any total preorder. -/
def sortBlockStyle (recs : List Row) : List Row :=
  List.insertionSort (sortRel recs) recs

/-! ### Concrete inputs used by counterexamples and witnesses -/

/-- Shorthand for string literals as `Str`. -/
def mkStr (s : String) : Str := s.data

/-- A one-page document: a borrower line, a facility line with an account
number, a neutral line, a second borrower line, and a facility line without an
account number (so the carried account-number hint is reused). -/
def docKDS : Doc :=
  { name := mkStr "SME_KDS.PDF",
    pages := [[mkStr "1 ALICE (00000000001)",
               mkStr "1234567890 TIME LOAN IDR 500 01-01-2023 01-01-2024",
               mkStr "X",
               mkStr "2 BOB (00000000002)",
               mkStr "TIME LOAN IDR 600 01-01-2023 01-01-2024"]] }

/-- A one-page document holding a single facility line and no borrower-identity
line at all. -/
def docSMG : Doc :=
  { name := mkStr "SME_SMG.PDF",
    pages := [[mkStr "9999999999 BANK GARANSI IDR 700 02-02-2023 02-02-2024"]] }

/-- Sample row: borrower A, a priority facility. -/
def rowA1 : Row :=
  { nama := mkStr "A", accNo := mkStr "0000000001", cabang := mkStr "KDS",
    fasilitas := mkStr "TIME LOAN", plafond := some 5, tglAkhir := some 20230101,
    sumberFile := mkStr "f.PDF", isPriority := true }

/-- Sample row: borrower A, a non-priority facility maturing later. -/
def rowA2 : Row :=
  { nama := mkStr "A", accNo := mkStr "0000000002", cabang := mkStr "KDS",
    fasilitas := mkStr "OTHER FEE", plafond := some 6, tglAkhir := some 20240101,
    sumberFile := mkStr "f.PDF", isPriority := false }

/-- Sample row: borrower A, another non-priority facility, latest maturity. -/
def rowA3 : Row :=
  { nama := mkStr "A", accNo := mkStr "0000000003", cabang := mkStr "KDS",
    fasilitas := mkStr "OTHER FEE", plafond := some 7, tglAkhir := some 20250101,
    sumberFile := mkStr "f.PDF", isPriority := false }

/-- Sample row: borrower B, non-priority only. -/
def rowB1 : Row :=
  { nama := mkStr "B", accNo := mkStr "0000000004", cabang := mkStr "KDS",
    fasilitas := mkStr "OTHER FEE", plafond := some 8, tglAkhir := some 20230601,
    sumberFile := mkStr "f.PDF", isPriority := false }

/-! ### Order-theoretic facts about the sort comparison -/

theorem optLeB_total (a b : Option Nat) : optLeB a b = true ∨ optLeB b a = true := by
  cases a <;> cases b <;> simp [optLeB] <;> omega

theorem optLeB_trans {a b c : Option Nat} (h1 : optLeB a b = true) (h2 : optLeB b c = true) :
    optLeB a c = true := by
  cases a <;> cases b <;> cases c <;> simp_all [optLeB] <;> omega

theorem optLeB_antisymm {a b : Option Nat} (h1 : optLeB a b = true) (h2 : optLeB b a = true) :
    a = b := by
  cases a <;> cases b <;> simp_all [optLeB] <;> omega

theorem strLeB_total : ∀ a b : Str, strLeB a b = true ∨ strLeB b a = true
  | [], _ => Or.inl rfl
  | _ :: _, [] => Or.inr rfl
  | a :: as, b :: bs => by
    by_cases h : a = b
    · subst h
      simpa [strLeB] using strLeB_total as bs
    · rcases lt_trichotomy a b with hl | he | hg
      · left; simp [strLeB, h, hl]
      · exact absurd he h
      · right; simp [strLeB, Ne.symm h, hg]

theorem strLeB_trans : ∀ {a b c : Str}, strLeB a b = true → strLeB b c = true →
    strLeB a c = true
  | [], _, _, _, _ => rfl
  | _ :: _, [], _, h1, _ => by simp [strLeB] at h1
  | _ :: _, _ :: _, [], _, h2 => by simp [strLeB] at h2
  | a :: as, b :: bs, c :: cs, h1, h2 => by
    by_cases hab : a = b
    · subst hab
      by_cases hac : a = c
      · subst hac
        simp only [strLeB, if_pos rfl] at h1 h2 ⊢
        exact strLeB_trans h1 h2
      · simpa [strLeB, hac] using (by simpa [strLeB, hac] using h2 : decide (a < c) = true)
    · by_cases hbc : b = c
      · subst hbc
        simpa [strLeB, hab] using (by simpa [strLeB, hab] using h1 : decide (a < b) = true)
      · simp only [strLeB, if_neg hab] at h1
        simp only [strLeB, if_neg hbc] at h2
        have hab2 : a < b := of_decide_eq_true h1
        have hbc2 : b < c := of_decide_eq_true h2
        have hac : a < c := lt_trans hab2 hbc2
        simp [strLeB, ne_of_lt hac, hac]

theorem strLeB_antisymm : ∀ {a b : Str}, strLeB a b = true → strLeB b a = true → a = b
  | [], [], _, _ => rfl
  | [], _ :: _, _, h2 => by simp [strLeB] at h2
  | _ :: _, [], h1, _ => by simp [strLeB] at h1
  | a :: as, b :: bs, h1, h2 => by
    by_cases hab : a = b
    · subst hab
      simp only [strLeB, if_pos rfl] at h1 h2
      exact congrArg (a :: ·) (strLeB_antisymm h1 h2)
    · simp only [strLeB, if_neg hab, if_neg (Ne.symm hab)] at h1 h2
      exact absurd (lt_trans (of_decide_eq_true h1) (of_decide_eq_true h2))
        (lt_irrefl a)

theorem lexB_total {α β : Type} [DecidableEq α] {lea : α → α → Bool} {leb : β → β → Bool}
    (ta : ∀ x y : α, lea x y = true ∨ lea y x = true)
    (tb : ∀ x y : β, leb x y = true ∨ leb y x = true) (x y : α × β) :
    lexB lea leb x y = true ∨ lexB lea leb y x = true := by
  unfold lexB
  by_cases h : x.1 = y.1
  · rw [if_pos h, if_pos h.symm]
    exact tb x.2 y.2
  · rw [if_neg h, if_neg (Ne.symm h)]
    exact ta x.1 y.1

theorem lexB_trans {α β : Type} [DecidableEq α] {lea : α → α → Bool} {leb : β → β → Bool}
    (tra : ∀ {x y z : α}, lea x y = true → lea y z = true → lea x z = true)
    (asa : ∀ {x y : α}, lea x y = true → lea y x = true → x = y)
    (trb : ∀ {x y z : β}, leb x y = true → leb y z = true → leb x z = true)
    {x y z : α × β} (h1 : lexB lea leb x y = true) (h2 : lexB lea leb y z = true) :
    lexB lea leb x z = true := by
  unfold lexB at h1 h2 ⊢
  by_cases hxy : x.1 = y.1
  · by_cases hyz : y.1 = z.1
    · rw [if_pos (hxy.trans hyz)]
      rw [if_pos hxy] at h1
      rw [if_pos hyz] at h2
      exact trb h1 h2
    · have hxz : x.1 ≠ z.1 := fun h => hyz (hxy.symm.trans h)
      rw [if_neg hxz, hxy]
      rwa [if_neg hyz] at h2
  · by_cases hyz : y.1 = z.1
    · have hxz : x.1 ≠ z.1 := fun h => hxy (h.trans hyz.symm)
      rw [if_neg hxz, ← hyz]
      rwa [if_neg hxy] at h1
    · rw [if_neg hxy] at h1
      rw [if_neg hyz] at h2
      by_cases hxz : x.1 = z.1
      · exact absurd (asa h1 (hxz ▸ h2)) hxy
      · rw [if_neg hxz]
        exact tra h1 h2

theorem lexB_sandwich {α β : Type} [DecidableEq α] {lea : α → α → Bool} {leb : β → β → Bool}
    (asa : ∀ {x y : α}, lea x y = true → lea y x = true → x = y)
    {x y z : α × β} (h1 : lexB lea leb x y = true) (h2 : lexB lea leb y z = true)
    (hxz : x.1 = z.1) :
    y.1 = x.1 ∧ leb x.2 y.2 = true ∧ leb y.2 z.2 = true := by
  unfold lexB at h1 h2
  by_cases hxy : x.1 = y.1
  · rw [if_pos hxy] at h1
    rw [if_pos (hxy.symm.trans hxz)] at h2
    exact ⟨hxy.symm, h1, h2⟩
  · by_cases hyz : y.1 = z.1
    · exact absurd (hyz.trans hxz.symm).symm hxy
    · rw [if_neg hxy] at h1
      rw [if_neg hyz] at h2
      exact absurd (asa h1 (hxz ▸ h2)) hxy

theorem keyLe_total (x y : Option Nat × Str × Option Nat × Str × Str) :
    keyLe x y = true ∨ keyLe y x = true := by
  unfold keyLe
  exact lexB_total optLeB_total
    (lexB_total strLeB_total
      (lexB_total optLeB_total
        (lexB_total strLeB_total strLeB_total))) x y

theorem lex4_trans {x y z : Str × Str}
    (h1 : lexB strLeB strLeB x y = true) (h2 : lexB strLeB strLeB y z = true) :
    lexB strLeB strLeB x z = true := by
  refine lexB_trans ?_ ?_ ?_ h1 h2
  · intro x y z a b; exact strLeB_trans a b
  · intro x y a b; exact strLeB_antisymm a b
  · intro x y z a b; exact strLeB_trans a b

theorem lex3_trans {x y z : Option Nat × Str × Str}
    (h1 : lexB optLeB (lexB strLeB strLeB) x y = true)
    (h2 : lexB optLeB (lexB strLeB strLeB) y z = true) :
    lexB optLeB (lexB strLeB strLeB) x z = true := by
  refine lexB_trans ?_ ?_ ?_ h1 h2
  · intro x y z a b; exact optLeB_trans a b
  · intro x y a b; exact optLeB_antisymm a b
  · intro x y z a b; exact lex4_trans a b

theorem lex2_trans {x y z : Str × Option Nat × Str × Str}
    (h1 : lexB strLeB (lexB optLeB (lexB strLeB strLeB)) x y = true)
    (h2 : lexB strLeB (lexB optLeB (lexB strLeB strLeB)) y z = true) :
    lexB strLeB (lexB optLeB (lexB strLeB strLeB)) x z = true := by
  refine lexB_trans ?_ ?_ ?_ h1 h2
  · intro x y z a b; exact strLeB_trans a b
  · intro x y a b; exact strLeB_antisymm a b
  · intro x y z a b; exact lex3_trans a b

theorem keyLe_trans {x y z : Option Nat × Str × Option Nat × Str × Str}
    (h1 : keyLe x y = true) (h2 : keyLe y z = true) : keyLe x z = true := by
  unfold keyLe at h1 h2 ⊢
  refine lexB_trans ?_ ?_ ?_ h1 h2
  · intro x y z a b; exact optLeB_trans a b
  · intro x y a b; exact optLeB_antisymm a b
  · intro x y z a b; exact lex2_trans a b

instance sortRelTotal (recs : List Row) : IsTotal Row (sortRel recs) :=
  ⟨fun a b => keyLe_total (sortKey recs a) (sortKey recs b)⟩

instance sortRelTrans (recs : List Row) : IsTrans Row (sortRel recs) :=
  ⟨fun _ _ _ h1 h2 => keyLe_trans h1 h2⟩

/-! ### Helper facts: membership, substring, deduplication -/

open List

theorem contains_iff_mem {α : Type} [BEq α] [LawfulBEq α] {l : List α} {a : α} :
    l.contains a = true ↔ a ∈ l := List.elem_iff

theorem strStarts_iff {pre s : Str} : strStarts pre s = true ↔ pre <+: s := by
  simp [strStarts]

theorem containsSub_iff {s pat : Str} : containsSub s pat = true ↔ pat <:+: s := by
  induction s with
  | nil => simp [containsSub, List.isEmpty_iff]
  | cons c rest ih =>
    simp only [containsSub, Bool.or_eq_true, strStarts_iff, ih, List.infix_cons_iff]

theorem hasPriorityB_iff {recs : List Row} {nama : Str} :
    hasPriorityB recs nama = true ↔ ∃ r ∈ recs, r.nama = nama ∧ r.isPriority = true := by
  simp [hasPriorityB, List.any_eq_true]

theorem dedupRowsAux_sublist : ∀ (seen) (l : List Row), dedupRowsAux seen l <+ l
  | _, [] => List.Sublist.refl _
  | seen, r :: rs => by
    rw [dedupRowsAux]
    by_cases h : seen.contains (dedupKey r) = true
    · rw [if_pos h]
      exact (dedupRowsAux_sublist seen rs).cons r
    · rw [if_neg h]
      exact (dedupRowsAux_sublist _ rs).cons₂ r

theorem dedupRowsAux_mem_not_seen : ∀ {seen} {l : List Row} {r2},
    r2 ∈ dedupRowsAux seen l → dedupKey r2 ∉ seen := by
  intro seen l
  induction l generalizing seen with
  | nil => intro r2 h; simp [dedupRowsAux] at h
  | cons r rs ih =>
    intro r2 h
    rw [dedupRowsAux] at h
    by_cases hc : seen.contains (dedupKey r) = true
    · rw [if_pos hc] at h
      exact ih h
    · rw [if_neg hc] at h
      rcases List.mem_cons.mp h with rfl | h2
      · exact fun hmem => hc (contains_iff_mem.mpr hmem)
      · exact fun hmem => (ih h2) (List.mem_cons_of_mem _ hmem)

theorem dedupRowsAux_firsts : ∀ {seen} {l : List Row} {r2}, r2 ∈ dedupRowsAux seen l →
    ∃ n : Nat, l[n]? = some r2 ∧
      ∀ m, m < n → ∀ r3, l[m]? = some r3 → dedupKey r3 ≠ dedupKey r2 := by
  intro seen l
  induction l generalizing seen with
  | nil => intro r2 h; simp [dedupRowsAux] at h
  | cons r rs ih =>
    intro r2 h
    rw [dedupRowsAux] at h
    by_cases hc : seen.contains (dedupKey r) = true
    · rw [if_pos hc] at h
      obtain ⟨n, hn, he⟩ := ih h
      refine ⟨n + 1, by simpa using hn, ?_⟩
      intro m hm r3 hr3
      match m with
      | 0 =>
        have hr : r3 = r := by simpa using hr3.symm
        subst hr
        intro heq
        exact dedupRowsAux_mem_not_seen h (heq ▸ contains_iff_mem.mp hc)
      | m + 1 =>
        exact he m (by omega) r3 (by simpa using hr3)
    · rw [if_neg hc] at h
      rcases List.mem_cons.mp h with rfl | h2
      · exact ⟨0, by simp, fun m hm => by omega⟩
      · obtain ⟨n, hn, he⟩ := ih h2
        refine ⟨n + 1, by simpa using hn, ?_⟩
        intro m hm r3 hr3
        match m with
        | 0 =>
          have hr : r3 = r := by simpa using hr3.symm
          subst hr
          have := dedupRowsAux_mem_not_seen h2
          exact fun heq => this (heq ▸ List.mem_cons_self _ _)
        | m + 1 =>
          exact he m (by omega) r3 (by simpa using hr3)

theorem dedupRowsAux_take_first : ∀ {seen} {l : List Row} (n : Nat) (r : Row),
    l[n]? = some r →
    (∀ m, m < n → ∀ r3, l[m]? = some r3 → dedupKey r3 ≠ dedupKey r) →
    dedupKey r ∉ seen → r ∈ dedupRowsAux seen l := by
  intro seen l
  induction l generalizing seen with
  | nil => intro n r h; simp at h
  | cons r0 rs ih =>
    intro n r hget he hseen
    rw [dedupRowsAux]
    match n, hget with
    | 0, hget =>
      have : r0 = r := by simpa using hget
      subst this
      rw [if_neg (fun hc => hseen (contains_iff_mem.mp hc))]
      exact List.mem_cons_self _ _
    | n + 1, hget =>
      have hget2 : rs[n]? = some r := by simpa using hget
      have hne : dedupKey r0 ≠ dedupKey r := he 0 (by omega) r0 (by simp)
      have he2 : ∀ m, m < n → ∀ r3, rs[m]? = some r3 → dedupKey r3 ≠ dedupKey r := by
        intro m hm r3 hr3
        exact he (m + 1) (by omega) r3 (by simpa using hr3)
      by_cases hc : seen.contains (dedupKey r0) = true
      · rw [if_pos hc]
        exact ih n r hget2 he2 hseen
      · rw [if_neg hc]
        refine List.mem_cons_of_mem _ (ih n r hget2 he2 ?_)
        intro hmem
        rcases List.mem_cons.mp hmem with heq | hmem2
        · exact hne heq.symm
        · exact hseen hmem2

theorem dedupRowsAux_pairwise : ∀ (seen) (l : List Row),
    (dedupRowsAux seen l).Pairwise (fun a b => dedupKey a ≠ dedupKey b)
  | _, [] => List.Pairwise.nil
  | seen, r :: rs => by
    rw [dedupRowsAux]
    by_cases hc : seen.contains (dedupKey r) = true
    · rw [if_pos hc]
      exact dedupRowsAux_pairwise seen rs
    · rw [if_neg hc]
      refine List.Pairwise.cons ?_ (dedupRowsAux_pairwise _ rs)
      intro b hb heq
      exact dedupRowsAux_mem_not_seen hb (heq ▸ List.mem_cons_self _ _)

theorem dedupRowsAux_eq_self : ∀ {seen} {l : List Row},
    (∀ r ∈ l, dedupKey r ∉ seen) →
    l.Pairwise (fun a b => dedupKey a ≠ dedupKey b) → dedupRowsAux seen l = l := by
  intro seen l
  induction l generalizing seen with
  | nil => intro _ _; rfl
  | cons r rs ih =>
    intro hseen hpw
    rw [dedupRowsAux]
    rw [if_neg (fun hc => hseen r (List.mem_cons_self _ _) (contains_iff_mem.mp hc))]
    have hpw2 := List.pairwise_cons.mp hpw
    refine congrArg (r :: ·) (ih ?_ hpw2.2)
    intro r2 hr2 hmem
    rcases List.mem_cons.mp hmem with heq | hmem2
    · exact hpw2.1 r2 hr2 heq.symm
    · exact hseen r2 (List.mem_cons_of_mem _ hr2) hmem2

theorem dedupRowsAux_covers : ∀ {seen} {l : List Row} {r}, r ∈ l → dedupKey r ∉ seen →
    ∃ r2 ∈ dedupRowsAux seen l, dedupKey r2 = dedupKey r := by
  intro seen l
  induction l generalizing seen with
  | nil => intro r h; simp at h
  | cons r0 rs ih =>
    intro r hmem hseen
    rw [dedupRowsAux]
    by_cases hc : seen.contains (dedupKey r0) = true
    · rw [if_pos hc]
      rcases List.mem_cons.mp hmem with rfl | h2
      · exact absurd (contains_iff_mem.mp hc) hseen
      · exact ih h2 hseen
    · rw [if_neg hc]
      rcases List.mem_cons.mp hmem with rfl | h2
      · exact ⟨r, List.mem_cons_self _ _, rfl⟩
      · by_cases hk : dedupKey r = dedupKey r0
        · exact ⟨r0, List.mem_cons_self _ _, hk.symm⟩
        · obtain ⟨r2, hr2, heq⟩ := ih h2 (by
            intro hmem2
            rcases List.mem_cons.mp hmem2 with heq2 | hmem3
            · exact hk heq2
            · exact hseen hmem3)
          exact ⟨r2, List.mem_cons_of_mem _ hr2, heq⟩

/-! ### Characterisation of `_clean_company_name` -/

theorem cleanCompanyName_take : ∀ {toks : List Str} {i : Nat},
    toks.findIdx? (fun t => upperStr (stripTok t) == mkStr "PT"
      || upperStr (stripTok t) == mkStr "CV") = some i →
    cleanCompanyName toks = toks.take (i + 1) := by
  intro toks
  induction toks with
  | nil => intro i h; simp at h
  | cons t ts ih =>
    intro i h
    simp only [mkStr] at h
    rw [List.findIdx?_cons] at h
    by_cases hp : (upperStr (stripTok t) == ("PT").data
        || upperStr (stripTok t) == ("CV").data) = true
    · rw [if_pos hp] at h
      have hi : i = 0 := (Option.some.inj h).symm
      subst hi
      rw [cleanCompanyName, if_pos hp]
      rfl
    · rw [if_neg hp] at h
      rw [List.findIdx?_succ] at h
      rcases Option.map_eq_some'.mp h with ⟨j, hj, hji⟩
      rw [cleanCompanyName, if_neg hp, ih hj, ← hji]
      rfl

theorem cleanCompanyName_id : ∀ {toks : List Str},
    toks.findIdx? (fun t => upperStr (stripTok t) == mkStr "PT"
      || upperStr (stripTok t) == mkStr "CV") = none →
    cleanCompanyName toks = toks := by
  intro toks
  induction toks with
  | nil => intro _; rfl
  | cons t ts ih =>
    intro h
    simp only [mkStr] at h
    rw [List.findIdx?_cons] at h
    by_cases hp : (upperStr (stripTok t) == ("PT").data
        || upperStr (stripTok t) == ("CV").data) = true
    · rw [if_pos hp] at h
      simp at h
    · rw [if_neg hp] at h
      rw [List.findIdx?_succ] at h
      rw [cleanCompanyName, if_neg hp]
      exact congrArg (t :: ·) (ih (Option.map_eq_none'.mp h))

/-! ### Claim theorems -/

/-- C9: the deduplicator keeps, for each distinct tuple (borrower display,
account number, facility type, amount, maturity date), only the first record in
input order, preserving the relative order of the kept records: the output is a
sublist of the input, its keys are pairwise distinct, every input key is still
represented, each kept record is the first input record bearing its key, every
such first record is kept — and running the deduplicator twice equals running
it once. -/
theorem dedupRows_first_wins_stable_idempotent (l : List Row) :
    dedupRows l <+ l ∧
    (dedupRows l).Pairwise (fun a b => dedupKey a ≠ dedupKey b) ∧
    (∀ r ∈ l, ∃ r2 ∈ dedupRows l, dedupKey r2 = dedupKey r) ∧
    (∀ r2 ∈ dedupRows l, ∃ n : Nat, l[n]? = some r2 ∧
        ∀ m, m < n → ∀ r3, l[m]? = some r3 → dedupKey r3 ≠ dedupKey r2) ∧
    (∀ n : Nat, ∀ r : Row, l[n]? = some r →
        (∀ m, m < n → ∀ r3, l[m]? = some r3 → dedupKey r3 ≠ dedupKey r) →
        r ∈ dedupRows l) ∧
    dedupRows (dedupRows l) = dedupRows l := by
  refine ⟨dedupRowsAux_sublist [] l, dedupRowsAux_pairwise [] l, ?_, ?_, ?_, ?_⟩
  · intro r hr
    exact dedupRowsAux_covers hr (by simp)
  · intro r2 h
    exact dedupRowsAux_firsts h
  · intro n r h he
    exact dedupRowsAux_take_first n r h he (by simp)
  · exact dedupRowsAux_eq_self (by simp) (dedupRowsAux_pairwise [] l)

/-- C9 witness: on a record list repeating its first row, the deduplicator keeps
the first copy, keeps both distinct rows in order, and is idempotent. -/
theorem dedupRows_first_wins_stable_idempotent_witness :
    dedupRows [rowA1, rowA2, rowA1] <+ [rowA1, rowA2, rowA1] ∧
    (∃ r2 ∈ dedupRows [rowA1, rowA2, rowA1], dedupKey r2 = dedupKey rowA1) ∧
    rowA2 ∈ dedupRows [rowA1, rowA2, rowA1] ∧
    dedupRows (dedupRows [rowA1, rowA2, rowA1]) = dedupRows [rowA1, rowA2, rowA1] := by
  obtain ⟨h1, _, h3, _, h5, h6⟩ := dedupRows_first_wins_stable_idempotent [rowA1, rowA2, rowA1]
  refine ⟨h1, h3 rowA1 (by decide), ?_, h6⟩
  refine h5 1 rowA2 (by decide) ?_
  intro m hm r3 hr3
  have hm0 : m = 0 := by omega
  subst hm0
  have : r3 = rowA1 := by simpa using hr3.symm
  subst this
  decide

/-- C6 counterexample: `is_priority_facility` is a substring test, not exact
membership: the string `TIME LOANS`, which merely contains the canonical type
`TIME LOAN` as a proper substring and is not itself one of the six canonical
types, is classified as priority. -/
theorem isPriorityFacility_not_exact_membership :
    isPriorityFacility (mkStr "TIME LOANS") = true ∧
    mkStr "TIME LOANS" ∉ priorityKeys ∧
    upperStr (mkStr "TIME LOANS") ∉ priorityKeys := by
  decide

/-- C6 amended: `is_priority_facility f` is true exactly when the upper-cased
input contains one of the six canonical priority types as a substring. -/
theorem isPriorityFacility_iff_substring (f : Str) :
    isPriorityFacility f = true ↔ ∃ k ∈ priorityKeys, k <:+: upperStr f := by
  simp only [isPriorityFacility, List.any_eq_true]
  constructor
  · rintro ⟨k, hk, hc⟩
    exact ⟨k, hk, containsSub_iff.mp hc⟩
  · rintro ⟨k, hk, hc⟩
    exact ⟨k, hk, containsSub_iff.mpr hc⟩

/-- C7 counterexample: a token list whose first token is the corporate marker
`UD` takes the corporate branch, but `_clean_company_name` only truncates at
`PT` or `CV`, so all five tokens are kept instead of only the tokens up to and
including the first marker. -/
theorem borrowerTokenCut_marker_not_cut :
    borrowerTokenCut
        [mkStr "UD", mkStr "SUMBER", mkStr "MAKMUR", mkStr "JAYA", mkStr "ABADI"] =
      [mkStr "UD", mkStr "SUMBER", mkStr "MAKMUR", mkStr "JAYA", mkStr "ABADI"] ∧
    corpMarkers.contains (upperStr (mkStr "UD")) = true ∧
    corpMarkers.contains (upperStr (stripTok (mkStr "UD"))) = true ∧
    borrowerTokenCut
        [mkStr "UD", mkStr "SUMBER", mkStr "MAKMUR", mkStr "JAYA", mkStr "ABADI"] ≠
      [mkStr "UD"] := by
  decide

/-- C7 amended: when no token upper-cases (raw) to a corporate marker, at most
the first three tokens are kept; when some token does, the corporate branch
keeps the tokens up to and including the first token whose punctuation-stripped
upper-case form is `PT` or `CV`, and keeps every token when there is no such
token. -/
theorem borrowerTokenCut_characterisation (toks : List Str) :
    (toks.any (fun t => corpMarkers.contains (upperStr t)) = false →
        borrowerTokenCut toks = toks.take 3) ∧
    (toks.any (fun t => corpMarkers.contains (upperStr t)) = true →
        borrowerTokenCut toks = cleanCompanyName toks) ∧
    (∀ i : Nat, toks.findIdx? (fun t => upperStr (stripTok t) == mkStr "PT"
          || upperStr (stripTok t) == mkStr "CV") = some i →
        cleanCompanyName toks = toks.take (i + 1)) ∧
    (toks.findIdx? (fun t => upperStr (stripTok t) == mkStr "PT"
          || upperStr (stripTok t) == mkStr "CV") = none →
        cleanCompanyName toks = toks) := by
  refine ⟨?_, ?_, ?_, ?_⟩
  · intro h
    rw [borrowerTokenCut, if_neg (by rw [h]; decide)]
  · intro h
    rw [borrowerTokenCut, if_pos h]
  · intro i h
    exact cleanCompanyName_take h
  · intro h
    exact cleanCompanyName_id h

/-- C7 witness: a personal-name token list keeps its first three tokens; a list
holding the marker `PT` in second position is cut right after that token. -/
theorem borrowerTokenCut_characterisation_witness :
    borrowerTokenCut [mkStr "LILIK", mkStr "SOESILOWATI", mkStr "JR", mkStr "X"] =
      [mkStr "LILIK", mkStr "SOESILOWATI", mkStr "JR"] ∧
    borrowerTokenCut [mkStr "X", mkStr "PT", mkStr "Y"] = [mkStr "X", mkStr "PT"] := by
  obtain ⟨h1, _, _, _⟩ :=
    borrowerTokenCut_characterisation [mkStr "LILIK", mkStr "SOESILOWATI", mkStr "JR", mkStr "X"]
  obtain ⟨_, h2, h3, _⟩ := borrowerTokenCut_characterisation [mkStr "X", mkStr "PT", mkStr "Y"]
  constructor
  · rw [h1 (by decide)]
    decide
  · rw [h2 (by decide), h3 1 (by decide)]
    decide

/-- C10: when the first ten-digit account-number match of a line is not a
standalone whitespace-delimited token of the cleaned line, the with-account
facility parser returns no record (it is a total function returning `none`,
mirroring the caught `ValueError` of `list.index`). -/
theorem parseFacilityFromLine_nonstandalone_acc (line : Str) (acc : Str)
    (hhead : (accMatches (cleanStr line)).head? = some acc)
    (hnot : (words (cleanStr line)).contains acc = false) :
    parseFacilityFromLine line = none := by
  have hmem : acc ∉ words (cleanStr line) := fun hmem => by
    rw [contains_iff_mem.mpr hmem] at hnot
    exact Bool.true_eq_false.mp hnot
  have hidx : (words (cleanStr line)).findIdx? (fun t => t == acc) = none := by
    rw [List.findIdx?_eq_none_iff]
    intro x hx
    exact beq_eq_false_iff_ne.mpr (fun heq => hmem (heq ▸ hx))
  rw [parseFacilityFromLine]
  rcases hm : accMatches (cleanStr line) with _ | ⟨a, rest⟩
  · simp [hm] at hhead
  · rw [hm] at hhead
    have ha : a = acc := by simpa using hhead
    subst ha
    by_cases hd : (dateMatches (cleanStr line)).length < 2
    · simp [hd]
    · simp [hd, hidx]

/-- C10 witness: a line whose only account-number match is wrapped in
parentheses (hence not a standalone token), with two dates and a currency code,
yields no record. -/
theorem parseFacilityFromLine_nonstandalone_acc_witness :
    (accMatches (cleanStr (mkStr "(1234567890) FOO IDR 5 01-01-2023 02-01-2024"))).head? =
        some (mkStr "1234567890") ∧
    (words (cleanStr (mkStr "(1234567890) FOO IDR 5 01-01-2023 02-01-2024"))).contains
        (mkStr "1234567890") = false ∧
    parseFacilityFromLine (mkStr "(1234567890) FOO IDR 5 01-01-2023 02-01-2024") = none :=
  ⟨by decide, by decide,
    parseFacilityFromLine_nonstandalone_acc _ (mkStr "1234567890") (by decide) (by decide)⟩

/-- C4: a borrower (keyed by display name) has rows in the priority view
exactly when one of its records has `IsPriority` true; the priority view holds
exactly that borrower's priority rows (in input order); a borrower with no
priority record keeps all of its rows, and only those, in the non-priority
view; no borrower appears in both views; and a non-priority row of a priority
borrower appears in neither view. -/
theorem splitPriority_characterisation (recs : List Row) :
    (∀ nama : Str, (∃ r ∈ (splitPriority recs).1, r.nama = nama) ↔
        (∃ r ∈ recs, r.nama = nama ∧ r.isPriority = true)) ∧
    (∀ nama : Str, (splitPriority recs).1.filter (fun r => r.nama == nama) =
        recs.filter (fun r => r.nama == nama && r.isPriority)) ∧
    (∀ nama : Str, ¬ (∃ r ∈ recs, r.nama = nama ∧ r.isPriority = true) →
        (splitPriority recs).2.filter (fun r => r.nama == nama) =
          recs.filter (fun r => r.nama == nama)) ∧
    (∀ nama : Str, (∃ r ∈ (splitPriority recs).1, r.nama = nama) →
        ¬ ∃ r ∈ (splitPriority recs).2, r.nama = nama) ∧
    (∀ r ∈ recs, r.isPriority = false →
        (∃ r2 ∈ recs, r2.nama = r.nama ∧ r2.isPriority = true) →
        r ∉ (splitPriority recs).1 ∧ r ∉ (splitPriority recs).2) := by
  refine ⟨?_, ?_, ?_, ?_, ?_⟩
  · intro nama
    constructor
    · rintro ⟨r, hr, rfl⟩
      rcases List.mem_filter.mp hr with ⟨hmem, hcond⟩
      simp only [Bool.and_eq_true] at hcond
      exact ⟨r, hmem, rfl, hcond.2⟩
    · rintro ⟨r, hr, rfl, hpri⟩
      refine ⟨r, List.mem_filter.mpr ⟨hr, ?_⟩, rfl⟩
      rw [hpri, hasPriorityB_iff.mpr ⟨r, hr, rfl, hpri⟩]
      rfl
  · intro nama
    simp only [splitPriority]
    rw [List.filter_filter]
    refine List.filter_congr ?_
    intro r hr
    by_cases hn : (r.nama == nama) = true
    · by_cases hp : r.isPriority = true
      · have hhp : hasPriorityB recs r.nama = true :=
          hasPriorityB_iff.mpr ⟨r, hr, rfl, hp⟩
        simp [hn, hp, hhp]
      · simp [hn, hp]
    · simp [hn]
  · intro nama hno
    simp only [splitPriority]
    rw [List.filter_filter]
    refine List.filter_congr ?_
    intro r hr
    by_cases hn : (r.nama == nama) = true
    · have heq : r.nama = nama := by simpa using hn
      have hnc : hasPriorityB recs r.nama = false := by
        rcases Bool.eq_false_or_eq_true (hasPriorityB recs r.nama) with ht | hf
        · exact absurd (heq ▸ hasPriorityB_iff.mp ht) hno
        · exact hf
      simp [hn, hnc]
    · simp [hn]
  · intro nama h1 h2
    rcases h1 with ⟨r1, hr1, hn1⟩
    rcases h2 with ⟨r2, hr2, hn2⟩
    rcases List.mem_filter.mp hr1 with ⟨hm1, hc1⟩
    rcases List.mem_filter.mp hr2 with ⟨hm2, hc2⟩
    simp only [Bool.and_eq_true] at hc1
    have hhas2 : hasPriorityB recs r2.nama = true := by
      rw [hn2, ← hn1]
      exact hc1.1
    rw [hhas2] at hc2
    simp at hc2
  · intro r hr hfalse hex
    constructor
    · intro hmem
      rcases List.mem_filter.mp hmem with ⟨_, hcond⟩
      simp only [Bool.and_eq_true] at hcond
      rw [hfalse] at hcond
      exact Bool.false_ne_true hcond.2
    · intro hmem
      rcases List.mem_filter.mp hmem with ⟨_, hcond⟩
      rcases hex with ⟨r2, hr2, hn2, hp2⟩
      rw [hasPriorityB_iff.mpr ⟨r2, hr2, hn2, hp2⟩] at hcond
      simp at hcond

/-- C4 witness: with borrower A having one priority and one non-priority row
and borrower B only a non-priority row, the priority view keeps exactly A's
priority row, the non-priority view keeps exactly B's row, and A's
non-priority row lands in neither view. -/
theorem splitPriority_characterisation_witness :
    ((splitPriority [rowA1, rowA2, rowB1]).1.filter (fun r => r.nama == rowA1.nama) =
      [rowA1, rowA2, rowB1].filter (fun r => r.nama == rowA1.nama && r.isPriority)) ∧
    ((splitPriority [rowA1, rowA2, rowB1]).2.filter (fun r => r.nama == rowB1.nama) =
      [rowA1, rowA2, rowB1].filter (fun r => r.nama == rowB1.nama)) ∧
    rowA2 ∉ (splitPriority [rowA1, rowA2, rowB1]).1 ∧
    rowA2 ∉ (splitPriority [rowA1, rowA2, rowB1]).2 := by
  obtain ⟨_, hb, hc, _, he⟩ := splitPriority_characterisation [rowA1, rowA2, rowB1]
  obtain ⟨he1, he2⟩ := he rowA2 (by decide) (by decide)
      ⟨rowA1, by decide, by decide, by decide⟩
  exact ⟨hb rowA1.nama, hc rowB1.nama (by decide), he1, he2⟩

theorem borrowerUpdate_rows (st : PState) (ln : Str) :
    (borrowerUpdate st ln).rows = st.rows := by
  unfold borrowerUpdate
  dsimp only
  split
  · split
    · rfl
    · rfl
  · rfl

theorem borrowerUpdate_lastAcc (st : PState) (ln : Str) :
    (borrowerUpdate st ln).lastAcc = st.lastAcc := by
  unfold borrowerUpdate
  dsimp only
  split
  · split
    · rfl
    · rfl
  · rfl

/-- C3: on any line, the per-line body appends at most one record; it appends
nothing when the borrower context active after the line's borrower-update step
is missing a name or an identity number, and nothing when no facility parses
from the line; when the line is not noise, a facility parses and the (possibly
just updated) context is complete, exactly the record combining that context
with the parsed facility is appended. The body is a total function: a dropped
line leaves the record list unchanged and raises nothing. -/
theorem processLine_emission (cab sf : Str) (st : PState) (ln0 : Str) :
    ((processLine cab sf st ln0).rows = st.rows ∨
      ∃ row : Row, (processLine cab sf st ln0).rows = st.rows ++ [row]) ∧
    (((processLine cab sf st ln0).currentName.isEmpty = true ∨
        (processLine cab sf st ln0).currentCif.isEmpty = true) →
      (processLine cab sf st ln0).rows = st.rows) ∧
    (facilityOfLine (cleanStr ln0) st.lastAcc = none →
      (processLine cab sf st ln0).rows = st.rows) ∧
    (∀ f : Facility, isNoiseLine (cleanStr ln0) = false →
      facilityOfLine (cleanStr ln0) st.lastAcc = some f →
      (borrowerUpdate st (cleanStr ln0)).currentName.isEmpty = false →
      (borrowerUpdate st (cleanStr ln0)).currentCif.isEmpty = false →
      (processLine cab sf st ln0).rows = st.rows ++
        [{ nama := (borrowerUpdate st (cleanStr ln0)).currentName ++ ' ' :: '(' ::
              (borrowerUpdate st (cleanStr ln0)).currentCif ++ [')'],
           accNo := f.acc, cabang := cab, fasilitas := upperStr f.fasilitas,
           plafond := f.plafond, tglAkhir := f.dtAkhir, sumberFile := sf,
           isPriority := isPriorityFacility f.fasilitas }]) := by
  by_cases hn : isNoiseLine (cleanStr ln0) = true
  · refine ⟨Or.inl ?_, fun _ => ?_, fun _ => ?_, fun f hnf => absurd hn (by rw [hnf]; decide)⟩
      <;> simp [processLine, hn]
  · have hn2 : isNoiseLine (cleanStr ln0) = false := by
      rcases Bool.eq_false_or_eq_true (isNoiseLine (cleanStr ln0)) with h | h
      · exact absurd h hn
      · exact h
    rcases hf : facilityOfLine (cleanStr ln0) st.lastAcc with _ | f
    · have hrows : (processLine cab sf st ln0).rows = st.rows := by
        simp only [processLine, hn2, Bool.false_eq_true, if_false, hf]
        exact borrowerUpdate_rows st (cleanStr ln0)
      exact ⟨Or.inl hrows, fun _ => hrows, fun _ => hrows,
        fun f2 _ hf2 => Option.noConfusion hf2⟩
    · by_cases hname : (borrowerUpdate st (cleanStr ln0)).currentName.isEmpty = true
      · have hrows : (processLine cab sf st ln0).rows = st.rows := by
          simp only [processLine, hn2, Bool.false_eq_true, if_false, hf, hname,
            Bool.not_true, Bool.false_and, if_false]
          exact borrowerUpdate_rows st (cleanStr ln0)
        refine ⟨Or.inl hrows, fun _ => hrows, fun _ => hrows, fun f2 _ hf2 hname2 _ => ?_⟩
        rw [hname] at hname2
        exact absurd hname2 (by decide)
      · have hname2 : (borrowerUpdate st (cleanStr ln0)).currentName.isEmpty = false := by
          rcases Bool.eq_false_or_eq_true
              ((borrowerUpdate st (cleanStr ln0)).currentName.isEmpty) with h | h
          · exact absurd h hname
          · exact h
        by_cases hcif : (borrowerUpdate st (cleanStr ln0)).currentCif.isEmpty = true
        · have hrows : (processLine cab sf st ln0).rows = st.rows := by
            simp only [processLine, hn2, Bool.false_eq_true, if_false, hf, hcif,
              Bool.not_true, Bool.and_false, if_false]
            exact borrowerUpdate_rows st (cleanStr ln0)
          refine ⟨Or.inl hrows, fun _ => hrows, fun _ => hrows, fun f2 _ hf2 _ hcif2 => ?_⟩
          rw [hcif] at hcif2
          exact absurd hcif2 (by decide)
        · have hcif2 : (borrowerUpdate st (cleanStr ln0)).currentCif.isEmpty = false := by
            rcases Bool.eq_false_or_eq_true
                ((borrowerUpdate st (cleanStr ln0)).currentCif.isEmpty) with h | h
            · exact absurd h hcif
            · exact h
          have hrows : (processLine cab sf st ln0).rows = st.rows ++
              [{ nama := (borrowerUpdate st (cleanStr ln0)).currentName ++ ' ' :: '(' ::
                    (borrowerUpdate st (cleanStr ln0)).currentCif ++ [')'],
                 accNo := f.acc, cabang := cab, fasilitas := upperStr f.fasilitas,
                 plafond := f.plafond, tglAkhir := f.dtAkhir, sumberFile := sf,
                 isPriority := isPriorityFacility f.fasilitas }] := by
            simp only [processLine, hn2, Bool.false_eq_true, if_false, hf, hname2, hcif2,
              Bool.not_false, Bool.and_self, if_true]
            rw [borrowerUpdate_rows st (cleanStr ln0)]
          have hcn : (processLine cab sf st ln0).currentName =
              (borrowerUpdate st (cleanStr ln0)).currentName := by
            simp only [processLine, hn2, Bool.false_eq_true, if_false, hf, hname2, hcif2,
              Bool.not_false, Bool.and_self, if_true]
          have hcc : (processLine cab sf st ln0).currentCif =
              (borrowerUpdate st (cleanStr ln0)).currentCif := by
            simp only [processLine, hn2, Bool.false_eq_true, if_false, hf, hname2, hcif2,
              Bool.not_false, Bool.and_self, if_true]
          refine ⟨Or.inr ⟨_, hrows⟩, ?_, fun hnone => Option.noConfusion hnone,
            fun f2 _ hf2 _ _ => ?_⟩
          · intro hempty
            rcases hempty with h | h
            · rw [hcn, hname2] at h
              exact absurd h (by decide)
            · rw [hcc, hcif2] at h
              exact absurd h (by decide)
          · have : f = f2 := Option.some.inj hf2
            subst this
            exact hrows

/-- C3 witness: a facility line processed with no active borrower context
leaves the record list unchanged, while the same line with an active context
appends exactly one record. -/
theorem processLine_emission_witness :
    (processLine (mkStr "KDS") (mkStr "f.PDF") initState
        (mkStr "1234567890 TIME LOAN IDR 5 01-01-2023 01-01-2024")).rows = [] ∧
    (processLine (mkStr "KDS") (mkStr "f.PDF")
        { currentName := mkStr "ALICE", currentCif := mkStr "00000000001",
          lastAcc := none, rows := [] }
        (mkStr "1234567890 TIME LOAN IDR 5 01-01-2023 01-01-2024")).rows =
      [{ nama := mkStr "ALICE (00000000001)", accNo := mkStr "1234567890",
         cabang := mkStr "KDS", fasilitas := mkStr "TIME LOAN", plafond := some 5,
         tglAkhir := some 20240101, sumberFile := mkStr "f.PDF", isPriority := true }] := by
  constructor
  · have h := (processLine_emission (mkStr "KDS") (mkStr "f.PDF") initState
      (mkStr "1234567890 TIME LOAN IDR 5 01-01-2023 01-01-2024")).2.1
    exact h (by decide)
  · have h := (processLine_emission (mkStr "KDS") (mkStr "f.PDF")
      { currentName := mkStr "ALICE", currentCif := mkStr "00000000001",
        lastAcc := none, rows := [] }
      (mkStr "1234567890 TIME LOAN IDR 5 01-01-2023 01-01-2024")).2.2.2
    rw [h (⟨mkStr "1234567890", mkStr "TIME LOAN", some 5, some 20240101⟩ : Facility)
      (by decide) (by decide) (by decide) (by decide)]
    decide

/-- C8 counterexample: a letter-of-credit line (no identity number, leading
sequence number) is merged with the following identity-number line by the
borrower-wrap rule, so it does not appear in the merger's output as its own
element. -/
theorem mergeWrapped_lc_merged :
    containsSub (upperStr (mkStr "12 L/C GOODS")) (mkStr "L/C") = true ∧
    mergeWrapped [mkStr "12 L/C GOODS", mkStr "(12345678901)"] =
      [mkStr "12 L/C GOODS (12345678901)"] ∧
    mkStr "12 L/C GOODS" ∉ mergeWrapped [mkStr "12 L/C GOODS", mkStr "(12345678901)"] := by
  decide

/-- C8 amended: the no-merge guarantee for letter-of-credit lines is the guard
of the facility-wrap rule alone: a cleaned line containing an account number
and `L/C` or `LETTER OF CREDIT` never triggers the facility-wrap merge, and
when it also contains an identity-number parenthetical (so the two
borrower-wrap rules cannot fire either) it is emitted unmerged, ahead of the
merge of the remaining lines. -/
theorem mergeWrapped_lc_acc_cif_passthrough (l : Str) (ls : List Str)
    (hclean : cleanStr l = l)
    (hacc : accSearchB l = true)
    (hlc : (containsSub (upperStr l) ("L/C").data
        || containsSub (upperStr l) ("LETTER OF CREDIT").data) = true)
    (hcif : cifSearchB l = true) :
    mergeWrapped (l :: ls) = l :: mergeWrapped ls := by
  have hne : l.isEmpty = false := by
    cases l with
    | nil => exact absurd hacc (by decide)
    | cons c cs => rfl
  unfold mergeWrapped
  rw [show ((l :: ls).length + 1) = (ls.length + 1) + 1 from rfl, mergeWrappedAux]
  dsimp only
  rw [if_neg (show ¬((cleanStr l).isEmpty = true) by rw [hclean, hne]; decide)]
  rw [if_neg (show ¬(_ = true) by
    intro hc
    rw [hclean, hcif] at hc
    simp at hc)]
  rw [if_neg (show ¬(_ = true) by
    intro hc
    rw [hclean, hcif] at hc
    simp at hc)]
  rw [if_neg (show ¬(_ = true) by
    intro hc
    rw [hclean] at hc
    rw [hlc] at hc
    simp at hc)]
  rw [hclean, hclean, List.filter_cons]
  rw [hne]
  rfl

/-- C8 witness: a concrete cleaned line with an account number, an `L/C`
marker and an identity number passes through the merger unmerged. -/
theorem mergeWrapped_lc_acc_cif_passthrough_witness :
    mergeWrapped [mkStr "1234567890 L/C (12345678901) X", mkStr "NEXT"] =
      mkStr "1234567890 L/C (12345678901) X" :: mergeWrapped [mkStr "NEXT"] :=
  mergeWrapped_lc_acc_cif_passthrough (mkStr "1234567890 L/C (12345678901) X")
    [mkStr "NEXT"] (by decide) (by decide) (by decide) (by decide)

/-- C5: the sorter orders a record set by the five-part key — per-borrower
minimum maturity date (absent dates do not contribute to the minimum, a
borrower with only absent dates sorts last), borrower display name, the row's
own maturity date (absent last), facility type, account number — as a stable
sort: the output is a permutation of the input, it is sorted under the key
comparison, any input pair already in key order keeps its relative order, and
consequently each borrower's rows form one contiguous block (a row lying
between two rows of the same borrower belongs to that borrower). -/
theorem sortBlockStyle_sorted_stable_blocks (recs : List Row) :
    sortBlockStyle recs ~ recs ∧
    (sortBlockStyle recs).Pairwise (sortRel recs) ∧
    (∀ a b : Row, sortRel recs a b → [a, b] <+ recs → [a, b] <+ sortBlockStyle recs) ∧
    (∀ i j k : Nat, i < j → j < k → ∀ a b c : Row,
      (sortBlockStyle recs)[i]? = some a → (sortBlockStyle recs)[j]? = some b →
      (sortBlockStyle recs)[k]? = some c → a.nama = c.nama → b.nama = a.nama) := by
  refine ⟨List.perm_insertionSort _ recs, List.sorted_insertionSort _ recs, ?_, ?_⟩
  · intro a b hab hsub
    exact List.pair_sublist_insertionSort hab hsub
  · intro i j k hij hjk a b c hia hjb hkc hik
    have hs : (sortBlockStyle recs).Sorted (sortRel recs) :=
      List.sorted_insertionSort _ recs
    obtain ⟨hi, hga⟩ := List.getElem?_eq_some.mp hia
    obtain ⟨hj, hgb⟩ := List.getElem?_eq_some.mp hjb
    obtain ⟨hk, hgc⟩ := List.getElem?_eq_some.mp hkc
    have r1 : keyLe (sortKey recs a) (sortKey recs b) = true := by
      have hrel := hs.rel_get_of_lt (a := ⟨i, hi⟩) (b := ⟨j, hj⟩) (by exact hij)
      simpa [List.get_eq_getElem, hga, hgb] using hrel
    have r2 : keyLe (sortKey recs b) (sortKey recs c) = true := by
      have hrel := hs.rel_get_of_lt (a := ⟨j, hj⟩) (b := ⟨k, hk⟩) (by exact hjk)
      simpa [List.get_eq_getElem, hgb, hgc] using hrel
    unfold keyLe at r1 r2
    have hfst : (sortKey recs a).1 = (sortKey recs c).1 := by
      simp only [sortKey]
      rw [hik]
    obtain ⟨_, h2, h3⟩ :=
      lexB_sandwich (fun {x y} a b => optLeB_antisymm a b) r1 r2 hfst
    have hfst2 : (sortKey recs a).2.1 = (sortKey recs c).2.1 := hik
    obtain ⟨h4, _, _⟩ :=
      lexB_sandwich (fun {x y} a b => strLeB_antisymm a b) h2 h3 hfst2
    exact h4

/-- C5 witness: on four concrete rows (borrower A with maturities 2023-01-01,
2024-01-01, 2025-01-01 and borrower B with 2023-06-01, interleaved in the
input), the sorted output is a permutation, an in-order pair of A-rows stays in
order, and the row between two A-rows is an A-row. -/
theorem sortBlockStyle_sorted_stable_blocks_witness :
    (sortBlockStyle [rowA3, rowB1, rowA1, rowA2] ~ [rowA3, rowB1, rowA1, rowA2]) ∧
    ([rowA1, rowA2] <+ sortBlockStyle [rowA3, rowB1, rowA1, rowA2]) ∧
    rowA2.nama = rowA1.nama := by
  obtain ⟨hperm, _, hstab, hblock⟩ :=
    sortBlockStyle_sorted_stable_blocks [rowA3, rowB1, rowA1, rowA2]
  exact ⟨hperm, hstab rowA1 rowA2 (by decide) (by decide),
    hblock 0 1 2 (by omega) (by omega) rowA1 rowA2 rowA3 (by decide) (by decide)
      (by decide) (by decide)⟩

set_option maxHeartbeats 2000000 in
/-- C1 counterexample: on the concrete single-document corpus `docKDS`, the
deduplicated output of `parse_pdfs_to_raw` contains the account number
`1234567890` under two different borrower displays — the second record reuses
the carried account-number hint after the borrower context has changed — so
the account-number-to-borrower mapping of the output is not a function. -/
theorem parsePdfsToRaw_acc_two_borrowers :
    ∃ r1 r2 : Row, r1 ∈ parsePdfsToRaw [docKDS] ∧ r2 ∈ parsePdfsToRaw [docKDS] ∧
      r1.accNo = mkStr "1234567890" ∧ r2.accNo = mkStr "1234567890" ∧
      r1.nama = mkStr "ALICE (00000000001)" ∧ r2.nama = mkStr "BOB (00000000002)" ∧
      r1.nama ≠ r2.nama := by
  refine ⟨(parsePdfsToRaw [docKDS]).get ⟨0, by decide⟩,
    (parsePdfsToRaw [docKDS]).get ⟨1, by decide⟩, ?_, ?_, ?_, ?_, ?_, ?_, ?_⟩ <;> decide

set_option maxHeartbeats 2000000 in
/-- C1 amended: `parse_pdfs_to_raw` does not guarantee the account-to-borrower
uniqueness invariant: there are input corpora whose deduplicated output maps
one account-number value to two different borrower displays. -/
theorem parsePdfsToRaw_acc_reuse_possible :
    ∃ docs : List Doc, ∃ r1 r2 : Row,
      r1 ∈ parsePdfsToRaw docs ∧ r2 ∈ parsePdfsToRaw docs ∧
      r1.accNo = r2.accNo ∧ r1.nama ≠ r2.nama := by
  refine ⟨[docKDS], (parsePdfsToRaw [docKDS]).get ⟨0, by decide⟩,
    (parsePdfsToRaw [docKDS]).get ⟨1, by decide⟩, ?_, ?_, ?_, ?_⟩ <;> decide

set_option maxHeartbeats 2000000 in
/-- C2 counterexample: the document `docSMG` contains no identity-number line
at all (and alone yields no records), yet in the corpus `[docKDS, docSMG]` the
record emitted for `docSMG` carries the borrower display established while
scanning `docKDS`: borrower context is not scoped to a single document. -/
theorem parsePdfsToRaw_context_crosses_documents :
    (∀ pg ∈ docSMG.pages, ∀ l ∈ pg, cifSearchB (cleanStr l) = false) ∧
    parsePdfsToRaw [docSMG] = [] ∧
    ∃ r : Row, r ∈ parsePdfsToRaw [docKDS, docSMG] ∧ r.sumberFile = docSMG.name ∧
      r.nama = mkStr "BOB (00000000002)" := by
  refine ⟨by decide, by decide,
    (parsePdfsToRaw [docKDS, docSMG]).get ⟨2, by decide⟩, ?_, ?_, ?_⟩ <;> decide

set_option maxHeartbeats 2000000 in
/-- C2 amended: the borrower context and account-number hint are initialised
once per run and threaded through the document fold in input order — they are
not reset at document boundaries: processing a corpus equals continuing from
the state left by its prefix, and joint processing differs from concatenating
the documents' independent runs. -/
theorem parsePdfsToRaw_state_threaded_across_documents :
    (∀ docs1 docs2 : List Doc,
      (docs1 ++ docs2).foldl (fun s d => processDoc s d) initState =
        docs2.foldl (fun s d => processDoc s d)
          (docs1.foldl (fun s d => processDoc s d) initState)) ∧
    parsePdfsToRaw [docKDS, docSMG] ≠ parsePdfsToRaw [docKDS] ++ parsePdfsToRaw [docSMG] := by
  constructor
  · intro docs1 docs2
    exact List.foldl_append (fun s d => processDoc s d) initState docs1 docs2
  · decide

/-- C6 witness: a string containing `TRUST RECEIPT` as a substring is
classified as priority via the substring characterisation. -/
theorem isPriorityFacility_iff_substring_witness :
    isPriorityFacility (mkStr "AAA TRUST RECEIPT BBB") = true :=
  (isPriorityFacility_iff_substring (mkStr "AAA TRUST RECEIPT BBB")).mpr
    ⟨mkStr "TRUST RECEIPT", by decide, by decide⟩
